import Mathlib

/-!
Verification of the Naturals salon static-site builder (`build/build.py`).

The Python build script is shallowly embedded here:
* a CSV row (a Python `dict` of string fields) becomes an association list
  `Row := List (String × String)`;
* Python string operations are modelled on `List Char` / `String`
  (`str.strip`, `str.lower`, slicing, `re.sub`-based character filtering);
* `datetime.strptime` for the three date formats used by the script is
  modelled by explicit parsers producing a `Date` record, with the calendar
  validation `datetime.__init__` performs;
* Python exceptions (`ValueError`, `AttributeError`) are modelled with
  `Except PyErr`; functions that catch them are given both an exception-level
  translation and the pure function they compute;
* `float` prices are modelled as exact rationals (all price strings reaching
  `float()` are plain decimal literals; IEEE rounding is not modelled);
* `list.sort(key=...)` (a stable sort) is modelled by `List.mergeSort`,
  which is stable.

Data in the sheets is ASCII; Unicode-only differences between Python's
`str.strip`/`str.lower`/`\d` and the ASCII-level models used here are noted
at each definition.
-/

namespace NaturalsBuild

/-- A spreadsheet row, as produced by `parse_csv`: an ordered association
list from column name to cell value (a Python `dict`; keys are unique). -/
abbrev Row := List (String × String)

/-- `row.get(k)`: the value at key `k`, if present (first binding wins;
dict keys are unique). -/
def Row.get? (r : Row) (k : String) : Option String :=
  (r.find? (fun p => p.1 == k)).map (fun p => p.2)

/-- `row.get(k, d)`: lookup with default. -/
def Row.getD (r : Row) (k d : String) : String :=
  (Row.get? r k).getD d

/-- `row[k]` at call sites where the pipeline guarantees the key is present
(e.g. `s["Store_ID"]` after filtering on a truthy `Store_ID`); missing keys
are modelled as `""` rather than a `KeyError`. -/
def Row.item (r : Row) (k : String) : String :=
  Row.getD r k ""

/-- `row[k] = v`: Python dict assignment keeps the position of an existing
key and appends a fresh key at the end. -/
def Row.set (r : Row) (k v : String) : Row :=
  if (r.find? (fun p => p.1 == k)).isSome then
    r.map (fun p => if p.1 == k then (k, v) else p)
  else
    r ++ [(k, v)]

/-- Characters stripped by Python `str.strip()` / `str.lstrip()`
(ASCII whitespace; further Unicode whitespace is not modelled). -/
def pyIsSpace (c : Char) : Bool :=
  c == ' ' || c == '\t' || c == '\n' || c == '\r' || c == '\x0b' || c == '\x0c'

/-- `str.strip()` on the underlying character list. -/
def pyStripChars (cs : List Char) : List Char :=
  ((cs.dropWhile pyIsSpace).reverse.dropWhile pyIsSpace).reverse

/-- `str.strip()`. -/
def pyStrip (s : String) : String :=
  String.mk (pyStripChars s.data)

/-- `str.lower()` (ASCII; the sheet data is ASCII). -/
def pyLower (s : String) : String :=
  String.mk (s.data.map Char.toLower)

/-- `is_yes(val)`: `str(val).strip().lower() in ("yes", "y", "true", "1")`. -/
def is_yes (val : String) : Bool :=
  let s := pyLower (pyStrip val)
  s == "yes" || s == "y" || s == "true" || s == "1"

/-- A `datetime.datetime` as produced by `strptime` on the formats the
script uses (always midnight, so only the calendar date matters). -/
structure Date where
  year : Nat
  month : Nat
  day : Nat
deriving DecidableEq

/-- Numeric key on dates. For calendar dates (`month ≤ 12`, `day ≤ 31`,
which `strptime` guarantees) ordering by this key coincides with the
field-lexicographic comparison Python uses on `datetime` values. -/
def Date.key (d : Date) : Nat :=
  d.year * 10000 + d.month * 100 + d.day

/-- Leap-year rule used by `datetime`. -/
def isLeap (y : Nat) : Bool :=
  y % 4 == 0 && (y % 100 != 0 || y % 400 == 0)

/-- Days in a month, as validated by `datetime.__init__`. -/
def daysInMonth (y m : Nat) : Nat :=
  if m = 2 then (if isLeap y then 29 else 28)
  else if m = 4 ∨ m = 6 ∨ m = 9 ∨ m = 11 then 30
  else 31

/-- `datetime(year, month, day)`: validates ranges (`MINYEAR = 1`,
`MAXYEAR = 9999`), raising `ValueError` (here: `none`) otherwise. -/
def mkDatetime (y m d : Nat) : Option Date :=
  if 1 ≤ y ∧ y ≤ 9999 ∧ 1 ≤ m ∧ m ≤ 12 ∧ 1 ≤ d ∧ d ≤ daysInMonth y m then
    some ⟨y, m, d⟩
  else
    none

/-- Numeric value of a digit string. -/
def digitsVal (ds : List Char) : Nat :=
  ds.foldl (fun a c => a * 10 + (c.toNat - '0'.toNat)) 0

/-- `strptime`'s `%d` (and, with `hi = 12`, `%m`): one or two leading digits
whose value lies in `1..hi` (CPython's `_strptime` regex `3[01]|[12]\d|0[1-9]|[1-9]`,
resp. `1[0-2]|0[1-9]|[1-9]`; since the following format character is never a
digit, this matches the full leading digit run, which must have length 1 or 2). -/
def parseNum2 (hi : Nat) (cs : List Char) : Option (Nat × List Char) :=
  let ds := cs.takeWhile Char.isDigit
  let rest := cs.dropWhile Char.isDigit
  if (ds.length = 1 ∨ ds.length = 2) ∧ 1 ≤ digitsVal ds ∧ digitsVal ds ≤ hi then
    some (digitsVal ds, rest)
  else
    none

/-- `strptime`'s `%Y`: exactly four digits (`\d\d\d\d`). -/
def parseYear4 (cs : List Char) : Option (Nat × List Char) :=
  let ds := cs.take 4
  if ds.length = 4 ∧ ds.all Char.isDigit then
    some (digitsVal ds, cs.drop 4)
  else
    none

/-- Lowercased English month abbreviations, as used by `%b` in the C locale. -/
def monthAbbrevs : List String :=
  ["jan", "feb", "mar", "apr", "may", "jun", "jul", "aug", "sep", "oct", "nov", "dec"]

/-- `strptime`'s `%b`: a case-insensitive three-letter month abbreviation. -/
def parseMonthAbbrev (cs : List Char) : Option (Nat × List Char) :=
  let pre := String.mk ((cs.take 3).map Char.toLower)
  match monthAbbrevs.indexOf? pre with
  | some i => some (i + 1, cs.drop 3)
  | none => none

/-- A literal character in a `strptime` format. -/
def expectChar (c : Char) : List Char → Option (List Char)
  | [] => none
  | x :: xs => if x = c then some xs else none

/-- `datetime.strptime(s, "%d-%b-%Y")`, e.g. `13-Mar-2026`; `none` models
the `ValueError` raised on a non-match, trailing data, or an invalid
calendar date. -/
def strptimeDbY (s : String) : Option Date := do
  let (d, r1) ← parseNum2 31 s.data
  let r2 ← expectChar '-' r1
  let (m, r3) ← parseMonthAbbrev r2
  let r4 ← expectChar '-' r3
  let (y, r5) ← parseYear4 r4
  if r5 = [] then mkDatetime y m d else none

/-- `datetime.strptime(s, "%d/%m/%Y")`. -/
def strptimeDmY (s : String) : Option Date := do
  let (d, r1) ← parseNum2 31 s.data
  let r2 ← expectChar '/' r1
  let (m, r3) ← parseNum2 12 r2
  let r4 ← expectChar '/' r3
  let (y, r5) ← parseYear4 r4
  if r5 = [] then mkDatetime y m d else none

/-- `datetime.strptime(s, "%Y-%m-%d")`. -/
def strptimeYmd (s : String) : Option Date := do
  let (y, r1) ← parseYear4 s.data
  let r2 ← expectChar '-' r1
  let (m, r3) ← parseNum2 12 r2
  let r4 ← expectChar '-' r3
  let (d, r5) ← parseNum2 31 r4
  if r5 = [] then mkDatetime y m d else none

/-- `parse_expiry(val)` for string input: try the three formats in order on
`val.strip()`; `None` if all fail.  (The exception-level translation, which
also covers non-string input, is `parse_expiryE` below.) -/
def parse_expiry (val : String) : Option Date :=
  match strptimeDbY (pyStrip val) with
  | some dt => some dt
  | none =>
    match strptimeDmY (pyStrip val) with
    | some dt => some dt
    | none => strptimeYmd (pyStrip val)

/-- `is_offer_active(valid_till_str)`, with the build's execution date
(`datetime.today().date()`) made explicit as `today`. -/
def is_offer_active (today : Date) (valid_till_str : String) : Bool :=
  if valid_till_str == "" || pyStrip valid_till_str == "" || pyStrip valid_till_str == "-" then
    true
  else
    match parse_expiry valid_till_str with
    | none => true
    | some dt => decide (today.key ≤ dt.key)

/-! ### Exception-level model of the two normalizers that catch exceptions -/

/-- The Python exceptions relevant to `parse_expiry` / `parse_price`;
`otherErr` stands for any exception outside the `except` clauses, which
would propagate to the caller. -/
inductive PyErr where
  | valueError
  | attributeError
  | otherErr
deriving DecidableEq

/-- A Python value flowing into `parse_expiry`: a `str`, or anything else
(on which `.strip()` raises `AttributeError`). -/
inductive PyVal where
  | str (s : String)
  | nonStr
deriving DecidableEq

/-- `val.strip()` on an arbitrary Python value. -/
def pyStripVal : PyVal → Except PyErr String
  | .str s => .ok (pyStrip s)
  | .nonStr => .error .attributeError

/-- `datetime.strptime(s, fmt)` raising `ValueError` on a non-match. -/
def strptimeE (fmt : String → Option Date) (s : String) : Except PyErr Date :=
  match fmt s with
  | some dt => .ok dt
  | none => .error .valueError

/-- The `for fmt in (...)` loop of `parse_expiry`: each iteration catches
exactly `ValueError` and `AttributeError`; any other exception propagates;
falling off the loop returns `None`. -/
def expiryLoop (v : PyVal) : List (String → Option Date) → Except PyErr (Option Date)
  | [] => .ok none
  | fmt :: fmts =>
    match (pyStripVal v).bind (strptimeE fmt) with
    | .ok dt => .ok (some dt)
    | .error .valueError => expiryLoop v fmts
    | .error .attributeError => expiryLoop v fmts
    | .error .otherErr => .error .otherErr

/-- `parse_expiry(val)` on an arbitrary Python value, with exceptions
modelled explicitly. -/
def parse_expiryE (v : PyVal) : Except PyErr (Option Date) :=
  expiryLoop v [strptimeDbY, strptimeDmY, strptimeYmd]

/-- The value `parse_expiry` computes, per the spec: try the formats in
order, `None` on failure or non-string input, never an exception. -/
def parse_expiryVal : PyVal → Option Date
  | .str s => parse_expiry s
  | .nonStr => none

/-- `float(digits)` where `digits` contains only decimal digits and `.`
(the output alphabet of `re.sub(r'[^\d.]', '', _)`): defined iff there is
at least one digit and at most one dot; the value is the exact decimal
value (IEEE rounding is not modelled — the comparisons the script makes
on these values agree with exact rational comparison). -/
def pyFloat (cs : List Char) : Option ℚ :=
  if cs.count '.' = 0 then
    if cs = [] then none else some (digitsVal cs)
  else if cs.count '.' = 1 then
    let ip := cs.takeWhile (fun c => c ≠ '.')
    let fp := (cs.dropWhile (fun c => c ≠ '.')).drop 1
    if ip = [] ∧ fp = [] then none
    else some ((digitsVal ip : ℚ) + (digitsVal fp : ℚ) / (10 : ℚ) ^ fp.length)
  else
    none

/-- `parse_price(val)`: `None` on falsy input, else strip every character
but digits and dots (Python `\d` is modelled as ASCII digits) and parse as
a float, `None` on `ValueError`. -/
def parse_price (val : String) : Option ℚ :=
  if val == "" then none
  else pyFloat (val.data.filter (fun c => c.isDigit || c == '.'))

/-- `float(digits)` raising `ValueError` when undefined. -/
def pyFloatE (cs : List Char) : Except PyErr ℚ :=
  match pyFloat cs with
  | some x => .ok x
  | none => .error .valueError

/-- `parse_price` with the `try/except ValueError` modelled explicitly:
only `ValueError` is caught; any other exception would propagate. -/
def parse_priceE (val : String) : Except PyErr (Option ℚ) :=
  if val == "" then .ok none
  else
    match pyFloatE (val.data.filter (fun c => c.isDigit || c == '.')) with
    | .ok x => .ok (some x)
    | .error .valueError => .ok none
    | .error e => .error e

/-! ### Featured offers -/

/-- The sentinel `datetime(9999, 12, 31)` used for offers with no
parseable expiry. -/
def farFuture : Date := ⟨9999, 12, 31⟩

/-- `sort_key(o)` inside `get_featured_offers`: the parsed expiry, or the
far-future sentinel when `parse_expiry` returns `None` (a `datetime` is
always truthy). -/
def sort_key (o : Row) : Date :=
  match parse_expiry (Row.getD o "Valid_till" "") with
  | some dt => dt
  | none => farFuture

/-- The comparison under which `active.sort(key=sort_key)` sorts. -/
def offerLE (a b : Row) : Bool :=
  decide ((sort_key a).key ≤ (sort_key b).key)

/-- The filter applied by `get_featured_offers`: the offer's stripped
`Store_ID` is an active store's ID, and the offer is active. -/
def featuredPred (today : Date) (active_stores : List Row) (o : Row) : Bool :=
  (active_stores.map (fun s => Row.item s "Store_ID")).contains
      (pyStrip (Row.getD o "Store_ID" ""))
    && is_offer_active today (Row.getD o "Valid_till" "")

/-- `get_featured_offers(all_offers, active_stores, n=3)`; `list.sort` is a
stable sort, modelled by `List.mergeSort`.  `today` is the execution date. -/
def get_featured_offers (today : Date) (all_offers active_stores : List Row)
    (n : Nat := 3) : List Row :=
  let active := all_offers.filter (featuredPred today active_stores)
  (active.mergeSort offerLE).take n

/-! ### Per-category minimum prices -/

/-- `HOME_SERVICE_CATS`: homepage category → lowercase keyword fragments. -/
def HOME_SERVICE_CATS : List (String × List String) :=
  [("Haircuts & Styling",       ["hair styling - female", "hair styling female"]),
   ("Hair Colour & Highlights", ["colouring", "highlights"]),
   ("Hair Spa & Treatments",    ["hair spa", "keratin", "smoothening", "treatment"]),
   ("Skin Care & Facials",      ["facial", "skin care", "de-tan", "cleanup"]),
   ("Bridal & Makeup",          ["bridal", "makeup", "mehendi"]),
   ("Men's Grooming",           ["hair styling - men", "mens", "men's"])]

/-- Substring containment on character lists (Python's `kw in cat`). -/
def listContainsSub (n : List Char) : List Char → Bool
  | [] => n.isEmpty
  | c :: t => n.isPrefixOf (c :: t) || listContainsSub n t

/-- Python `kw in cat` for strings. -/
def strContains (hay needle : String) : Bool :=
  listContainsSub needle.data hay.data

/-- Does a service row match a category's keyword list
(`any(kw in svc['Category'].lower() for kw in keywords)`)? -/
def catMatches (keywords : List String) (svc : Row) : Bool :=
  keywords.any (fun kw => strContains (pyLower (Row.getD svc "Category" "")) kw)

/-- The fixed price-field priority order. -/
def PRICE_FIELDS : List String := ["Regular_Cost", "Price", "Cost", "MRP"]

/-- The inner `for price_field in (...)` loop of `get_min_prices`: walk the
fields; at the first one whose parsed price `p` satisfies `p and p > 0`
(i.e. is truthy and positive), fold it into the running minimum and
`break`; otherwise leave the minimum unchanged. -/
def priceLoop (svc : Row) (min_p : Option ℚ) : List String → Option ℚ
  | [] => min_p
  | f :: fs =>
    match parse_price (Row.getD svc f "") with
    | some p =>
      if p ≠ 0 ∧ p > 0 then
        match min_p with
        | none => some p
        | some m => if p < m then some p else some m
      else priceLoop svc min_p fs
    | none => priceLoop svc min_p fs

/-- `int(q)` for the nonnegative floats this script produces (Python `int`
truncates toward zero; on nonnegative values that is the floor). -/
def pyInt (q : ℚ) : Int :=
  if 0 ≤ q then q.floor else -((-q).floor)

/-- `get_min_prices(services)`: for each homepage category, the minimum
over matching services of the first positive price field, as
`int(min_p) if min_p else None`. -/
def get_min_prices (services : List Row) : List (String × Option Int) :=
  HOME_SERVICE_CATS.map (fun cat =>
    let min_p := services.foldl
      (fun min_p svc =>
        if catMatches cat.2 svc then priceLoop svc min_p PRICE_FIELDS else min_p)
      none
    (cat.1, match min_p with
            | none => none
            | some q => if q = 0 then none else some (pyInt q)))

/-! ### Phone normalisation -/

/-- `normalise_phone(raw)`: returns `(display, tel, wa)`.  Python string
slicing/concatenation is modelled on the character list; `re.sub(r'\D', '', _)`
keeps ASCII digits (the `\D` class is Unicode-aware, the data ASCII). -/
def normalise_phone (raw : String) : String × String × String :=
  let digits : List Char := raw.data.filter Char.isDigit
  if digits.isEmpty then (raw, raw, raw)
  else
    let loc : List Char :=
      if digits.length == 12 && "91".data.isPrefixOf digits then digits.drop 2
      else if digits.length == 10 then digits
      else if digits.length > 10 then digits.drop (digits.length - 10)
      else digits
    (String.mk ("+91 ".data ++ loc.take 5 ++ " ".data ++ loc.drop 5),
     String.mk ("+91".data ++ loc),
     String.mk ("91".data ++ loc))

/-- `enrich_store_phones(store)`: add the three normalised phone fields,
and the landline fields when `Landline_Raw` is truthy (dict mutation is
modelled by `Row.set`). -/
def enrich_store_phones (store : Row) : Row :=
  let raw := Row.getD store "Phone_Raw" (Row.getD store "Phone_Mobile" "")
  let dtw := normalise_phone raw
  let s1 := Row.set store "Phone_Display" dtw.1
  let s2 := Row.set s1 "Phone_Tel" dtw.2.1
  let s3 := Row.set s2 "WhatsApp_Number" dtw.2.2
  if Row.getD s3 "Landline_Raw" "" != "" then
    let lw := normalise_phone (Row.item s3 "Landline_Raw")
    Row.set (Row.set s3 "Landline_Display" lw.1) "Landline_Tel" lw.2.1
  else s3

/-! ### Store selection and per-store page pieces -/

/-- `STORE_ORDER`: the hardcoded canonical ordering of store IDs. -/
def STORE_ORDER : List String :=
  ["Store_N78", "Store_N77", "Store_N36", "Store_N05", "Store_N43"]

/-- `store_map = {s["Store_ID"]: s for s in store_details if s.get("Store_ID")}`,
looked up at `sid`: rows with a truthy `Store_ID` enter the dict in order,
later rows overwriting earlier ones, so lookup finds the last such row
whose `Store_ID` is `sid`. -/
def store_map (tbl : List Row) (sid : String) : Option Row :=
  ((tbl.filter (fun s => Row.getD s "Store_ID" "" != "")).reverse).find?
    (fun s => Row.item s "Store_ID" == sid)

/-- `all_stores = [store_map[sid] for sid in STORE_ORDER if sid in store_map]`. -/
def all_stores (tbl : List Row) : List Row :=
  STORE_ORDER.filterMap (store_map tbl)

/-- The store-activity test: `is_yes(s.get("Active_Status", "yes"))`. -/
def storeActive (s : Row) : Bool :=
  is_yes (Row.getD s "Active_Status" "yes")

/-- `active_stores = [s for s in all_stores if is_yes(s.get("Active_Status", "yes"))]`. -/
def active_stores (tbl : List Row) : List Row :=
  (all_stores tbl).filter storeActive

/-- `idx` in `build_store`: index of the first active store whose
`Store_ID` equals `store_id`, defaulting to 0. -/
def storeIdx (active : List Row) (store_id : String) : Nat :=
  (active.findIdx? (fun s => Row.item s "Store_ID" == store_id)).getD 0

/-- `prev_store = active_stores[(idx - 1) % len(active_stores)]`
(Python `%` on a positive modulus agrees with `Int.emod`, which is `%`
here; indexing is total in `build_store`, modelled with `get?`). -/
def prev_store (active : List Row) (store_id : String) : Option Row :=
  active.get? ((((storeIdx active store_id : Int) - 1) % (active.length : Int)).toNat)

/-- `next_store = active_stores[(idx + 1) % len(active_stores)]`. -/
def next_store (active : List Row) (store_id : String) : Option Row :=
  active.get? ((((storeIdx active store_id : Int) + 1) % (active.length : Int)).toNat)

/-- The stylist filter in `build_store`: same store (stripped ID equality)
and `str(s.get("Active_Status", "yes")).strip().lower() != "no"`. -/
def stylistsFor (all_stylists : List Row) (store_id : String) : List Row :=
  all_stylists.filter (fun s =>
    pyStrip (Row.getD s "Store_ID" "") == store_id
      && pyLower (pyStrip (Row.getD s "Active_Status" "yes")) != "no")

/-! ### HTML minification (`minify_html`) -/

/-- Locate the first `-->` in `l`; `some rest` is the text after it (the
end of the lazy `.*?-->` match of the comment-stripping regex). -/
def findClose : List Char → Option (List Char)
  | [] => none
  | c :: cs =>
    if "-->".data.isPrefixOf (c :: cs) then some ((c :: cs).drop 3)
    else findClose cs

theorem findClose_length {l r : List Char} (h : findClose l = some r) :
    r.length < l.length := by
  induction l with
  | nil => simp [findClose] at h
  | cons c cs ih =>
    rw [findClose] at h
    split at h
    · rename_i hp
      cases h
      rw [ List.isPrefixOf_iff_prefix] at hp
      have h3 : 3 ≤ (c :: cs).length := by
        have := hp.length_le
        simpa using this
      simp only [List.length_drop]
      omega
    · have := ih h
      simp only [List.length_cons]
      omega

/-- `re.sub(r'<!--(?!\[if).*?-->', '', html, flags=re.DOTALL)`: scan left
to right; at a position starting a comment opener `<!--` not followed by
`[if` and with a later `-->`, delete through the first `-->` and resume
after it; otherwise keep the character and move on. -/
def stripComments (l : List Char) : List Char :=
  match l with
  | [] => []
  | c :: cs =>
    if "<!--".data.isPrefixOf (c :: cs)
        && !("[if".data.isPrefixOf ((c :: cs).drop 4)) then
      match h : findClose ((c :: cs).drop 4) with
      | some rest => stripComments rest
      | none => c :: stripComments cs
    else c :: stripComments cs
termination_by l.length
decreasing_by
  · have h1 := findClose_length h
    simp only [List.length_drop] at h1 ⊢
    omega
  · simp
  · simp

theorem length_dropWhile_le (p : Char → Bool) (l : List Char) :
    (l.dropWhile p).length ≤ l.length :=
  (List.dropWhile_sublist p).length_le

/-- One `re.sub` pass collapsing each maximal run of characters satisfying
`p` via `repl` (used for `\n{3,} → "\n\n"` and `[ \t]{2,} → " "`, whose
replacements leave short runs unchanged). -/
def collapseRuns (p : Char → Bool) (repl : List Char → List Char) (l : List Char) :
    List Char :=
  match l with
  | [] => []
  | c :: cs =>
    if p c then
      repl ((c :: cs).takeWhile p) ++ collapseRuns p repl ((c :: cs).dropWhile p)
    else c :: collapseRuns p repl cs
termination_by l.length
decreasing_by
  · rename_i hp
    simp only [List.dropWhile_cons, hp, if_true, List.length_cons]
    exact Nat.lt_succ_of_le (length_dropWhile_le _ _)
  · simp

/-- Replacement for a maximal newline run: `\n{3,}` becomes `"\n\n"`,
shorter runs are left alone (the regex does not match them). -/
def replNL (r : List Char) : List Char :=
  if 3 ≤ r.length then ['\n', '\n'] else r

/-- `re.sub(r'\n{3,}', '\n\n', html)`: a maximal run of three or more
newlines becomes two newlines (one blank line); shorter runs stay. -/
def collapseNL : List Char → List Char :=
  collapseRuns (fun c => c == '\n') replNL

/-- Replacement for a maximal space/tab run: `[ \t]{2,}` becomes a single
space, single characters are left alone. -/
def replHWS (r : List Char) : List Char :=
  if 2 ≤ r.length then [' '] else r

/-- `re.sub(r'[ \t]{2,}', ' ', html)`: a maximal run of two or more
spaces/tabs becomes a single space; single characters stay. -/
def collapseHWS : List Char → List Char :=
  collapseRuns (fun c => c == ' ' || c == '\t') replHWS

/-- Python `html.split('\n')`. -/
def splitNL : List Char → List (List Char)
  | [] => [[]]
  | c :: cs =>
    if c = '\n' then [] :: splitNL cs
    else
      match splitNL cs with
      | [] => [[c]]
      | l :: ls => (c :: l) :: ls

/-- Python `'\n'.join(lines)`. -/
def joinNL : List (List Char) → List Char
  | [] => []
  | [l] => l
  | l :: ls => l ++ '\n' :: joinNL ls

/-- The per-line loop of `minify_html`: split on newlines, `lstrip()` each
line, join with newlines. -/
def lstripLines (cs : List Char) : List Char :=
  joinNL ((splitNL cs).map (List.dropWhile pyIsSpace))

/-- `minify_html(html)`: strip non-IE comments, collapse newline runs,
strip leading whitespace per line, collapse horizontal whitespace runs,
then `str.strip()` the result. -/
def minify_html (html : String) : String :=
  let h1 := stripComments html.data
  let h2 := collapseNL h1
  let h3 := lstripLines h2
  let h4 := collapseHWS h3
  String.mk (pyStripChars h4)

/-! ### Top-level control flow of `main` -/

/-- The four sheet fetches, each either rows or a raised exception
(network/HTTP errors, carried as a message). -/
structure SheetFetches where
  store_details : Except String (List Row)
  services : Except String (List Row)
  offers : Except String (List Row)
  stylists : Except String (List Row)

/-- Outcome of a run of `main`: the `except`/`sys.exit(1)` paths, or
success reporting the total page count. -/
inductive MainOutcome where
  | fetchError (msg : String)
  | noActiveStores
  | success (totalPages : Nat)
deriving DecidableEq

/-- `main()`: fetch the four sheets in order inside one `try` (the first
exception aborts, uncaught fetches are not attempted, nothing is retried);
exit on zero active stores; otherwise build `2 + len(active_stores) + 4`
pages.  Rendering and file writes do not affect the outcome and are
modelled only by the page count. -/
def mainRun (fs : SheetFetches) : MainOutcome :=
  match fs.store_details with
  | .error e => .fetchError e
  | .ok store_details =>
    match fs.services with
    | .error e => .fetchError e
    | .ok _services =>
      match fs.offers with
      | .error e => .fetchError e
      | .ok _offers =>
        match fs.stylists with
        | .error e => .fetchError e
        | .ok _stylists =>
          let active := active_stores store_details
          if active.isEmpty then .noActiveStores
          else
            let enriched := active.map enrich_store_phones
            .success (2 + enriched.length + 4)

/-- The process exit status for each outcome (`sys.exit(1)` on the two
error paths, falling off `main` gives status 0). -/
def exitCode : MainOutcome → Nat
  | .fetchError _ => 1
  | .noActiveStores => 1
  | .success _ => 0

/-! ## Theorems -/

/-- **C3**: `is_offer_active` is true when the string is empty or trims to
`-`; otherwise true when the expiry is unparseable; and when it parses,
true exactly when the parsed date is on or after the execution date
(inclusive boundary), with concrete boundary/past/future instances. -/
theorem C3_is_offer_active_semantics (d : Date) (v : String) :
    (is_offer_active d v = true ↔
      v = "" ∨ pyStrip v = "" ∨ pyStrip v = "-" ∨ parse_expiry v = none ∨
        ∃ dt, parse_expiry v = some dt ∧ d.key ≤ dt.key) ∧
    is_offer_active ⟨2026, 3, 13⟩ "" = true ∧
    is_offer_active ⟨2026, 3, 13⟩ "-" = true ∧
    is_offer_active ⟨2026, 3, 13⟩ "not a date" = true ∧
    is_offer_active ⟨2026, 3, 13⟩ "13-Mar-2026" = true ∧
    is_offer_active ⟨2026, 3, 14⟩ "13-Mar-2026" = false ∧
    is_offer_active ⟨2026, 3, 12⟩ "13-Mar-2026" = true := by
  refine ⟨?_, by decide, by decide, by decide, by decide, by decide, by decide⟩
  rw [is_offer_active]
  by_cases hb : (v == "" || pyStrip v == "" || pyStrip v == "-") = true
  · rw [if_pos hb]
    simp only [Bool.or_eq_true, beq_iff_eq] at hb
    simp only [true_iff]
    tauto
  · rw [if_neg hb]
    simp only [Bool.or_eq_true, beq_iff_eq] at hb
    push_neg at hb
    obtain ⟨⟨h1, h2⟩, h3⟩ := hb
    cases hp : parse_expiry v with
    | none => simp
    | some dt =>
      simp only [decide_eq_true_eq]
      constructor
      · intro hle
        exact Or.inr (Or.inr (Or.inr (Or.inr ⟨dt, rfl, hle⟩)))
      · rintro (h' | h' | h' | h' | ⟨dt', hdt', hle⟩)
        · exact absurd h' h1
        · exact absurd h' h2
        · exact absurd h' h3
        · cases h'
        · cases hdt'
          exact hle

/-- **C8**: the exception-level translations of `parse_expiry` and
`parse_price` never propagate an exception: on every input — including a
non-string for `parse_expiry` — they return normally with the pure
first-success value (`parse_expiryVal` tries the three formats in order
and is `none` on total failure or a non-string input). -/
theorem C8_parsers_never_raise (v : PyVal) (w : String) :
    (parse_expiryE v = .ok (parse_expiryVal v) ∧ parse_priceE w = .ok (parse_price w)) ∧
    parse_expiryVal PyVal.nonStr = none ∧ parse_price "" = none ∧
    (∀ s dt, strptimeDbY (pyStrip s) = some dt → parse_expiry s = some dt) ∧
    (∀ s dt, strptimeDbY (pyStrip s) = none → strptimeDmY (pyStrip s) = some dt →
      parse_expiry s = some dt) ∧
    (∀ s, strptimeDbY (pyStrip s) = none → strptimeDmY (pyStrip s) = none →
      parse_expiry s = strptimeYmd (pyStrip s)) := by
  refine ⟨⟨?_, ?_⟩, rfl, rfl,
    fun s dt h1 => by rw [parse_expiry, h1],
    fun s dt h1 h2 => by rw [parse_expiry, h1, h2],
    fun s h1 h2 => by rw [parse_expiry, h1, h2]⟩
  · cases v with
    | nonStr => rfl
    | str s =>
      simp only [parse_expiryE, parse_expiryVal, parse_expiry, expiryLoop, pyStripVal,
        strptimeE, Except.bind]
      cases h1 : strptimeDbY (pyStrip s) <;>
        cases h2 : strptimeDmY (pyStrip s) <;>
          cases h3 : strptimeYmd (pyStrip s) <;>
            simp [h1, h2, h3, expiryLoop, strptimeE]
  · simp only [parse_priceE, parse_price, pyFloatE]
    split
    · rfl
    · cases h : pyFloat (w.data.filter (fun c => c.isDigit || c == '.')) <;> simp [h]

/-- Witness for C8: the first format wins when it parses; the second is
used when the first fails. -/
theorem C8_parsers_never_raise_witness :
    parse_expiry "13-Mar-2026" = some ⟨2026, 3, 13⟩ ∧
    parse_expiry "13/03/2026" = some ⟨2026, 3, 13⟩ := by
  constructor
  · exact (C8_parsers_never_raise PyVal.nonStr "").2.2.2.1 "13-Mar-2026" ⟨2026, 3, 13⟩
      (by decide)
  · exact (C8_parsers_never_raise PyVal.nonStr "").2.2.2.2.1 "13/03/2026" ⟨2026, 3, 13⟩
      (by decide) (by decide)

/-- **C10**: a stylist is surfaced on a store page iff its stripped
`Store_ID` equals the store's ID and its status (stripped, lowercased,
defaulting to `"yes"`) is not the literal `"no"`; thus unrecognized tokens
such as `"maybe"`, `"0"`, `"false"` keep a stylist active, while the same
tokens exclude a store, which must affirmatively pass `is_yes`. -/
theorem C10_stylist_vs_store_activity (all_stylists : List Row) (store_id : String) (s : Row) :
    (s ∈ stylistsFor all_stylists store_id ↔
      s ∈ all_stylists ∧ pyStrip (Row.getD s "Store_ID" "") = store_id ∧
        pyLower (pyStrip (Row.getD s "Active_Status" "yes")) ≠ "no") ∧
    stylistsFor [[("Store_ID", "S1"), ("Active_Status", "maybe")]] "S1"
      = [[("Store_ID", "S1"), ("Active_Status", "maybe")]] ∧
    stylistsFor [[("Store_ID", "S1"), ("Active_Status", " No ")]] "S1" = [] ∧
    stylistsFor [[("Store_ID", "S1")]] "S1" = [[("Store_ID", "S1")]] ∧
    is_yes "maybe" = false ∧ is_yes "0" = false ∧ is_yes "false" = false ∧
    active_stores [[("Store_ID", "Store_N78"), ("Active_Status", "maybe")]] = [] := by
  refine ⟨?_, by decide, by decide, by decide, by decide, by decide, by decide, by decide⟩
  simp only [stylistsFor, List.mem_filter, Bool.and_eq_true, beq_iff_eq, bne_iff_ne, ne_eq]

/-- **C7**: the build exits 0 exactly when all four fetches return and the
active-store list is nonempty, in which case it reports
`2 + len(active_stores) + 4` pages; a failed fetch or an empty active list
exits with status 1. -/
theorem C7_main_exit_behavior (fs : SheetFetches) :
    (exitCode (mainRun fs) = 0 ↔
      ∃ t1 t2 t3 t4, fs = ⟨.ok t1, .ok t2, .ok t3, .ok t4⟩ ∧ active_stores t1 ≠ []) ∧
    (∀ t1 t2 t3 t4, fs = ⟨.ok t1, .ok t2, .ok t3, .ok t4⟩ → active_stores t1 ≠ [] →
      mainRun fs = .success (2 + (active_stores t1).length + 4)) ∧
    (∀ e, (fs.store_details = .error e ∨ fs.services = .error e ∨
        fs.offers = .error e ∨ fs.stylists = .error e) →
      exitCode (mainRun fs) = 1) := by
  obtain ⟨f1, f2, f3, f4⟩ := fs
  cases f1 <;> cases f2 <;> cases f3 <;> cases f4 <;>
    simp only [mainRun, exitCode, SheetFetches.mk.injEq, Except.ok.injEq, Except.error.injEq] <;>
      try simp
  rename_i t1 _t2 _t3 _t4
  by_cases h : active_stores t1 = []
  · rw [if_pos h]
    constructor
    · simp [h]
    · rintro u1 u2 u3 u4 rfl rfl rfl rfl hne
      exact absurd h hne
  · rw [if_neg h]
    constructor
    · simp [h]
    · rintro u1 u2 u3 u4 rfl rfl rfl rfl hne
      rfl

/-- Witness for C7: one active store yields exit 0 with 7 pages; a failed
first fetch yields exit 1. -/
theorem C7_main_exit_behavior_witness :
    mainRun ⟨.ok [[("Store_ID", "Store_N78")]], .ok [], .ok [], .ok []⟩ = .success 7 ∧
    exitCode (mainRun ⟨.error "boom", .ok [], .ok [], .ok []⟩) = 1 := by
  constructor
  · have h := (C7_main_exit_behavior
      ⟨.ok [[("Store_ID", "Store_N78")]], .ok [], .ok [], .ok []⟩).2.1
      [[("Store_ID", "Store_N78")]] [] [] [] rfl (by decide)
    exact h.trans (by decide)
  · exact (C7_main_exit_behavior ⟨.error "boom", .ok [], .ok [], .ok []⟩).2.2 "boom" (Or.inl rfl)

/-- Lookup in the store dict pins the row's own ID and its membership in
the fetched table. -/
theorem store_map_eq_some {tbl : List Row} {sid : String} {r : Row}
    (h : store_map tbl sid = some r) :
    r ∈ tbl ∧ Row.item r "Store_ID" = sid := by
  unfold store_map at h
  constructor
  · have hm := List.mem_of_find?_eq_some h
    have := List.mem_reverse.1 hm
    exact List.mem_of_mem_filter this
  · have hp := List.find?_some h
    simpa [beq_iff_eq] using hp

/-- The IDs of the rows selected from a dict along an ID list form a
subsequence of that list. -/
theorem map_item_filterMap_sublist (tbl : List Row) (ids : List String) :
    ((ids.filterMap (store_map tbl)).map (fun s => Row.item s "Store_ID")).Sublist ids := by
  induction ids with
  | nil => simp
  | cons id ids ih =>
    rw [List.filterMap_cons]
    cases h : store_map tbl id with
    | none => exact ih.cons id
    | some r =>
      rw [List.map_cons, (store_map_eq_some h).2]
      exact ih.cons₂ id

/-- In the pipeline, the active-store list always has pairwise-distinct
IDs (its IDs form a subsequence of the hardcoded `STORE_ORDER`), so the
distinctness hypothesis of the adjacency theorem always holds in `main`. -/
theorem active_stores_ids_nodup (tbl : List Row) :
    ((active_stores tbl).map (fun s => Row.item s "Store_ID")).Nodup := by
  have h1 : (active_stores tbl).Sublist (all_stores tbl) := List.filter_sublist _
  have h2 := (h1.map (fun s => Row.item s "Store_ID")).trans
    (map_item_filterMap_sublist tbl STORE_ORDER)
  exact h2.nodup (by decide)

/-- **C1**: the rendered store list is exactly the source rows that win
the `Store_ID` dict for an ID in `STORE_ORDER` and pass the activity
filter (missing `Active_Status` defaults to yes), and its IDs appear as a
subsequence of the canonical ordering. -/
theorem C1_store_selection (tbl : List Row) (r : Row) :
    ((active_stores tbl).map (fun s => Row.item s "Store_ID")).Sublist STORE_ORDER ∧
    (r ∈ active_stores tbl ↔
      r ∈ tbl ∧ storeActive r = true ∧ Row.item r "Store_ID" ∈ STORE_ORDER ∧
        store_map tbl (Row.item r "Store_ID") = some r) := by
  constructor
  · have h1 : (active_stores tbl).Sublist (all_stores tbl) := List.filter_sublist _
    exact (h1.map (fun s => Row.item s "Store_ID")).trans
      (map_item_filterMap_sublist tbl STORE_ORDER)
  · unfold active_stores all_stores
    rw [List.mem_filter, List.mem_filterMap]
    constructor
    · rintro ⟨⟨sid, hsid, hsm⟩, hact⟩
      obtain ⟨hmem, hitem⟩ := store_map_eq_some hsm
      subst hitem
      exact ⟨hmem, hact, hsid, hsm⟩
    · rintro ⟨_hmem, hact, hin, hsm⟩
      exact ⟨⟨_, hin, hsm⟩, hact⟩

/-- `findIdx?` with a fresh-keyed predicate finds exactly the queried
position when the keys are distinct. -/
theorem findIdx?_map_nodup {α β : Type} [BEq β] [LawfulBEq β] (f : α → β) :
    ∀ (l : List α) (i : Nat) (h : i < l.length), (l.map f).Nodup →
      l.findIdx? (fun s => f s == f (l.get ⟨i, h⟩)) = some i := by
  intro l
  induction l with
  | nil => intro i h; exact absurd h (by simp)
  | cons x t ih =>
    intro i h hnd
    rw [List.map_cons, List.nodup_cons] at hnd
    obtain ⟨hx, hnd⟩ := hnd
    cases i with
    | zero => simp [List.findIdx?_cons]
    | succ j =>
      have hj : j < t.length := by simpa using h
      have hget : (x :: t).get ⟨j + 1, h⟩ = t.get ⟨j, hj⟩ := rfl
      rw [hget, List.findIdx?_cons]
      have hne : (f x == f (t.get ⟨j, hj⟩)) = false := by
        rw [beq_eq_false_iff_ne]
        intro hc
        exact hx (hc ▸ List.mem_map_of_mem f (List.get_mem t _ _))
      have hne' : ¬ ((f x == f (t.get ⟨j, hj⟩)) = true) := by
        rw [hne]
        simp
      rw [if_neg hne']
      rw [List.findIdx?_succ, ih j hj hnd]
      rfl

theorem emod_next_eq {i n : Nat} (_h : i < n) :
    (((i : Int) + 1) % (n : Int)).toNat = (i + 1) % n := by
  have h1 : ((i : Int) + 1) = ((i + 1 : Nat) : Int) := by push_cast; ring
  rw [h1, ← Int.natCast_mod, Int.toNat_natCast]

theorem emod_prev_eq {i n : Nat} (h : i < n) :
    (((i : Int) - 1) % (n : Int)).toNat = (i + n - 1) % n := by
  cases i with
  | zero =>
    have hn : (1 : Int) ≤ (n : Int) := by exact_mod_cast Nat.one_le_iff_ne_zero.2 (by omega)
    have h1 : ((0 : Nat) : Int) - 1 = -1 := by norm_num
    have h2 : (-1 : Int) % (n : Int) = (n : Int) - 1 := by
      have ha : (-1 + (n : Int) * 1) % (n : Int) = (-1) % (n : Int) :=
        Int.add_mul_emod_self_left (-1) ((n : Nat) : Int) 1
      have hb : (-1 + (n : Int) * 1) = (n : Int) - 1 := by ring
      rw [hb] at ha
      rw [← ha]
      exact Int.emod_eq_of_lt (by omega) (by omega)
    have h3 : (0 + n - 1) % n = n - 1 := by
      have hc : 0 + n - 1 = n - 1 := by omega
      rw [hc]
      exact Nat.mod_eq_of_lt (by omega)
    rw [h1, h2, h3]
    omega
  | succ j =>
    have h1 : ((j + 1 : Nat) : Int) - 1 = (j : Nat) := by push_cast; ring
    have h2 : ((j : Nat) : Int) % (n : Int) = (j : Nat) :=
      Int.emod_eq_of_lt (by omega) (by exact_mod_cast (by omega : j < n))
    have h3 : (j + 1 + n - 1) % n = j := by
      have : j + 1 + n - 1 = j + n := by omega
      rw [this, Nat.add_mod_right]
      exact Nat.mod_eq_of_lt (by omega)
    rw [h1, h2, h3]
    omega

/-- **C5**: with distinct store IDs, the previous/next stores of the store
at index `i` in the active list are the entries at `(i - 1) mod N` and
`(i + 1) mod N`, wrapping circularly at both ends, over the active list. -/
theorem C5_circular_adjacency (active : List Row) (i : Nat) (h : i < active.length)
    (hnd : (active.map (fun s => Row.item s "Store_ID")).Nodup) :
    prev_store active (Row.item (active.get ⟨i, h⟩) "Store_ID")
        = active.get? ((i + active.length - 1) % active.length) ∧
    next_store active (Row.item (active.get ⟨i, h⟩) "Store_ID")
        = active.get? ((i + 1) % active.length) ∧
    (i = 0 → prev_store active (Row.item (active.get ⟨i, h⟩) "Store_ID")
        = active.get? (active.length - 1)) ∧
    (i = active.length - 1 → next_store active (Row.item (active.get ⟨i, h⟩) "Store_ID")
        = active.get? 0) := by
  have hidx : storeIdx active (Row.item (active.get ⟨i, h⟩) "Store_ID") = i := by
    unfold storeIdx
    rw [findIdx?_map_nodup (fun s => Row.item s "Store_ID") active i h hnd]
    rfl
  refine ⟨?_, ?_, ?_, ?_⟩
  · unfold prev_store
    rw [hidx, emod_prev_eq h]
  · unfold next_store
    rw [hidx, emod_next_eq h]
  · intro h0
    subst h0
    unfold prev_store
    rw [hidx, emod_prev_eq h]
    have hm : (0 + active.length - 1) % active.length = active.length - 1 := by
      have h2 : 0 + active.length - 1 = active.length - 1 := by omega
      rw [h2]
      exact Nat.mod_eq_of_lt (by omega)
    rw [hm]
  · intro hN
    unfold next_store
    rw [hidx, emod_next_eq h]
    have hm : (i + 1) % active.length = 0 := by
      rw [hN]
      have h2 : active.length - 1 + 1 = active.length := by omega
      rw [h2, Nat.mod_self]
    rw [hm]

/-- Witness for C5: a concrete three-store list, checked at the first and
last positions. -/
theorem C5_circular_adjacency_witness :
    prev_store [[("Store_ID", "A")], [("Store_ID", "B")], [("Store_ID", "C")]] "A"
        = some [("Store_ID", "C")] ∧
    next_store [[("Store_ID", "A")], [("Store_ID", "B")], [("Store_ID", "C")]] "C"
        = some [("Store_ID", "A")] := by
  have h1 := (C5_circular_adjacency
    [[("Store_ID", "A")], [("Store_ID", "B")], [("Store_ID", "C")]] 0 (by decide)
    (by decide)).2.2.1 rfl
  have h2 := (C5_circular_adjacency
    [[("Store_ID", "A")], [("Store_ID", "B")], [("Store_ID", "C")]] 2 (by decide)
    (by decide)).2.2.2 rfl
  exact ⟨h1.trans (by decide), h2.trans (by decide)⟩

/-- `normalise_phone` restated from the spec's words: keep only digits; a
12-digit number starting `91` loses that country prefix, a 10-digit number
is used as-is, anything else keeps its last 10 digits (or all of them when
fewer); render display as `+91` then a space, the first five local digits,
a space, and the rest; dialable as `+91` plus the local digits; messaging
as `91` plus the local digits. -/
def normalise_phone_spec (raw : String) : String × String × String :=
  let ds : List Char := raw.data.filter Char.isDigit
  if ds = [] then (raw, raw, raw)
  else
    let loc : List Char :=
      if ds.length = 12 ∧ ds.take 2 = ['9', '1'] then ds.drop 2
      else if ds.length = 10 then ds
      else (ds.reverse.take 10).reverse
    (String.mk (['+', '9', '1', ' '] ++ loc.take 5 ++ [' '] ++ loc.drop 5),
     String.mk (['+', '9', '1'] ++ loc),
     String.mk (['9', '1'] ++ loc))

/-- The last `k` elements, written via `reverse`/`take`, equal
`drop (length - k)`. -/
theorem reverse_take_reverse_eq_drop (l : List Char) (k : Nat) :
    (l.reverse.take k).reverse = l.drop (l.length - k) := by
  have h := List.rtake_eq_reverse_take_reverse (l := l) (n := k)
  rw [List.rtake] at h
  exact h.symm

/-- The local-number selection of `normalise_phone` (source form, with the
`digits[-10:] if len > 10 else digits` branch) equals the spec's form
(last ten via `reverse`/`take`). -/
theorem local_digits_branches (ds : List Char) :
    (if ds.length == 12 && "91".data.isPrefixOf ds then ds.drop 2
     else if ds.length == 10 then ds
     else if ds.length > 10 then ds.drop (ds.length - 10) else ds)
    = (if ds.length = 12 ∧ ds.take 2 = ['9', '1'] then ds.drop 2
       else if ds.length = 10 then ds
       else (ds.reverse.take 10).reverse) := by
  have hc1 : (ds.length == 12 && "91".data.isPrefixOf ds) = true ↔
      (ds.length = 12 ∧ ds.take 2 = ['9', '1']) := by
    rw [Bool.and_eq_true, beq_iff_eq, List.isPrefixOf_iff_prefix, List.prefix_iff_eq_take]
    constructor
    · rintro ⟨hl, hp⟩
      exact ⟨hl, hp.symm⟩
    · rintro ⟨hl, hp⟩
      exact ⟨hl, hp.symm⟩
  by_cases h1 : ds.length = 12 ∧ ds.take 2 = ['9', '1']
  · rw [if_pos (hc1.2 h1), if_pos h1]
  · rw [if_neg (fun hc => h1 (hc1.1 hc)), if_neg h1]
    by_cases h2 : ds.length = 10
    · rw [if_pos (by simpa using h2), if_pos h2]
    · rw [if_neg (by simpa using h2), if_neg h2, reverse_take_reverse_eq_drop]
      by_cases h3 : ds.length > 10
      · rw [if_pos h3]
      · rw [if_neg h3]
        have hz : ds.length - 10 = 0 := by omega
        rw [hz, List.drop_zero]

/-- **C6**: `normalise_phone` agrees with the spec's description on every
input, and on the spec's concrete examples: a `91`-prefixed 12-digit
number, and a digit-free input returned unchanged in all three slots. -/
theorem C6_normalise_phone (raw : String) :
    normalise_phone raw = normalise_phone_spec raw ∧
    normalise_phone "918792642299" = ("+91 87926 42299", "+918792642299", "918792642299") ∧
    normalise_phone "no digits!" = ("no digits!", "no digits!", "no digits!") := by
  refine ⟨?_, by decide, by decide⟩
  rw [normalise_phone, normalise_phone_spec]
  by_cases h0 : raw.data.filter Char.isDigit = []
  · rw [h0]
    simp
  · have h0' : ¬ ((raw.data.filter Char.isDigit).isEmpty = true) := by
      simpa [List.isEmpty_iff] using h0
    rw [if_neg h0', if_neg h0, local_digits_branches]

/-- The price a single service contributes, per the spec: the first field
in the priority order whose value parses to a strictly positive number. -/
def posPrice (svc : Row) (f : String) : Option ℚ :=
  match parse_price (Row.getD svc f "") with
  | some p => if 0 < p then some p else none
  | none => none

/-- First positive price field of a service, in priority order. -/
def firstPositivePrice (svc : Row) : Option ℚ :=
  (PRICE_FIELDS.filterMap (posPrice svc)).head?

/-- Per-category minimum price, per the spec: the minimum over matching
services of each one's first positive price field. -/
def minPriceSpec (services : List Row) (keywords : List String) : Option ℚ :=
  ((services.filter (catMatches keywords)).filterMap firstPositivePrice).min?

/-- `int(min_p) if min_p else None`. -/
def renderPrice : Option ℚ → Option Int
  | none => none
  | some q => if q = 0 then none else some (pyInt q)

/-- Folding one price into the running minimum (the body of the
`if min_p is None or p < min_p` update). -/
def optMin (acc : Option ℚ) (p : ℚ) : Option ℚ :=
  some (match acc with
        | none => p
        | some m => if p < m then p else m)

/-- The field loop accumulates exactly the first positive price. -/
theorem priceLoop_eq (svc : Row) :
    ∀ (fields : List String) (acc : Option ℚ),
      priceLoop svc acc fields =
        match (fields.filterMap (posPrice svc)).head? with
        | none => acc
        | some p => optMin acc p := by
  intro fields
  induction fields with
  | nil => intro acc; rfl
  | cons f fs ih =>
    intro acc
    rw [priceLoop, List.filterMap_cons]
    cases hp : parse_price (Row.getD svc f "") with
    | none =>
      simp only [show posPrice svc f = none from by rw [posPrice, hp]]
      exact ih acc
    | some p =>
      by_cases hpos : 0 < p
      · simp only [show posPrice svc f = some p from by
          rw [posPrice, hp]
          exact if_pos hpos]
        rw [if_pos ⟨hpos.ne', hpos⟩]
        simp only [List.head?_cons]
        cases acc with
        | none => rfl
        | some m =>
          show (if p < m then some p else some m) = optMin (some m) p
          by_cases hlt : p < m
          · rw [if_pos hlt]
            show some p = some (if p < m then p else m)
            rw [if_pos hlt]
          · rw [if_neg hlt]
            show some m = some (if p < m then p else m)
            rw [if_neg hlt]
      · simp only [show posPrice svc f = none from by
          rw [posPrice, hp]
          exact if_neg hpos]
        rw [if_neg (fun hc => hpos hc.2)]
        exact ih acc

/-- Folding `optMin` from a seeded minimum computes `foldl min`. -/
theorem foldl_optMin_some (qs : List ℚ) :
    ∀ (m : ℚ), qs.foldl optMin (some m) = some (qs.foldl min m) := by
  induction qs with
  | nil => intro m; rfl
  | cons p qs ih =>
    intro m
    rw [List.foldl_cons, List.foldl_cons]
    have h : optMin (some m) p = some (min m p) := by
      rw [optMin]
      by_cases hlt : p < m
      · rw [if_pos hlt]
        rw [min_eq_right hlt.le]
      · rw [if_neg hlt]
        rw [min_eq_left (le_of_not_lt hlt)]
    rw [h, ih]

/-- Folding `optMin` from `none` computes `List.min?`. -/
theorem foldl_optMin_none (qs : List ℚ) :
    qs.foldl optMin none = qs.min? := by
  cases qs with
  | nil => rfl
  | cons p qs =>
    rw [List.foldl_cons, List.min?_cons']
    exact foldl_optMin_some qs p

/-- The per-category service fold equals `optMin`-folding the positive
prices of the matching services. -/
theorem services_fold_eq (kws : List String) :
    ∀ (services : List Row) (acc : Option ℚ),
      services.foldl
          (fun min_p svc =>
            if catMatches kws svc then priceLoop svc min_p PRICE_FIELDS else min_p)
          acc
        = ((services.filter (catMatches kws)).filterMap firstPositivePrice).foldl optMin acc := by
  intro services
  induction services with
  | nil => intro acc; rfl
  | cons svc rest ih =>
    intro acc
    rw [List.foldl_cons, List.filter_cons]
    by_cases hm : catMatches kws svc
    · rw [if_pos hm, if_pos hm, List.filterMap_cons]
      cases hf : firstPositivePrice svc with
      | none =>
        rw [priceLoop_eq]
        rw [show (PRICE_FIELDS.filterMap (posPrice svc)).head? = none from hf]
        exact ih acc
      | some p =>
        rw [priceLoop_eq]
        rw [show (PRICE_FIELDS.filterMap (posPrice svc)).head? = some p from hf]
        rw [List.foldl_cons]
        exact ih (optMin acc p)
    · rw [if_neg hm, if_neg hm]
      exact ih acc

/-- **C4**: `get_min_prices` computes, for each homepage category, the
rendered minimum over keyword-matching services of each service's first
positive price field (absent — never zero — when no match contributes);
on the spec's example the 300 from a lower-priority field beats the 500. -/
theorem C4_min_prices (services : List Row) :
    get_min_prices services
      = HOME_SERVICE_CATS.map (fun cat => (cat.1, renderPrice (minPriceSpec services cat.2))) ∧
    get_min_prices
        [[("Category", "Bridal work"), ("Regular_Cost", "500")],
         [("Category", "bridal makeup"), ("MRP", "300")]]
      = [("Haircuts & Styling", none), ("Hair Colour & Highlights", none),
         ("Hair Spa & Treatments", none), ("Skin Care & Facials", none),
         ("Bridal & Makeup", some 300), ("Men's Grooming", none)] ∧
    renderPrice none = none := by
  refine ⟨?_, by decide, rfl⟩
  rw [get_min_prices]
  apply List.map_congr_left
  intro cat _
  rw [services_fold_eq, foldl_optMin_none]
  rfl

theorem offerLE_trans (a b c : Row) : offerLE a b → offerLE b c → offerLE a c := by
  simp only [offerLE, decide_eq_true_eq]
  omega

theorem offerLE_total (a b : Row) : offerLE a b || offerLE b a := by
  simp only [offerLE, Bool.or_eq_true, decide_eq_true_eq]
  omega

/-- Filtering a prefix-by-`take` yields a prefix of the filtered list. -/
theorem filter_take_append (p : Row → Bool) :
    ∀ (l : List Row) (n : Nat), ∃ t, (l.take n).filter p ++ t = l.filter p := by
  intro l
  induction l with
  | nil => intro n; exact ⟨[], by simp⟩
  | cons x xs ih =>
    intro n
    cases n with
    | zero => exact ⟨(x :: xs).filter p, by simp⟩
    | succ m =>
      obtain ⟨t, ht⟩ := ih m
      rw [List.take_succ_cons, List.filter_cons, List.filter_cons]
      by_cases hx : p x
      · rw [if_pos hx, if_pos hx]
        exact ⟨t, by rw [List.cons_append, ht]⟩
      · rw [if_neg hx, if_neg hx]
        exact ⟨t, ht⟩

/-- Stability of the offer sort: the offers sharing any fixed sort key
come out of `mergeSort` in their source order. -/
theorem mergeSort_filter_key (l : List Row) (k : Nat) :
    (l.mergeSort offerLE).filter (fun o => (sort_key o).key == k)
      = l.filter (fun o => (sort_key o).key == k) := by
  have hpw : (l.filter (fun o => (sort_key o).key == k)).Pairwise
      (fun a b => offerLE a b = true) := by
    apply List.pairwise_of_forall_mem_list
    intro a ha b hb
    have hak := (List.mem_filter.1 ha).2
    have hbk := (List.mem_filter.1 hb).2
    rw [beq_iff_eq] at hak hbk
    simp only [offerLE, decide_eq_true_eq, hak, hbk]
    exact le_refl k
  have hsub : (l.filter (fun o => (sort_key o).key == k)).Sublist (l.mergeSort offerLE) :=
    List.sublist_mergeSort offerLE_trans offerLE_total hpw (List.filter_sublist l)
  have hsub2 : ((l.filter (fun o => (sort_key o).key == k)).filter
        (fun o => (sort_key o).key == k)).Sublist
      ((l.mergeSort offerLE).filter (fun o => (sort_key o).key == k)) :=
    hsub.filter _
  rw [List.filter_filter] at hsub2
  have hself : (l.filter (fun o =>
      ((sort_key o).key == k) && ((sort_key o).key == k))) =
      l.filter (fun o => (sort_key o).key == k) := by
    apply List.filter_congr
    intro o _
    rw [Bool.and_self]
  rw [hself] at hsub2
  have hperm : ((l.mergeSort offerLE).filter (fun o => (sort_key o).key == k)).Perm
      (l.filter (fun o => (sort_key o).key == k)) :=
    (List.mergeSort_perm l offerLE).filter _
  exact (hsub2.eq_of_length hperm.length_eq.symm).symm

/-- **C2**: the featured selection keeps exactly the active offers at
active stores, sorted ascending by parsed expiry with unparseable
expiries keyed far-future, stably (equal keys keep source order), and
truncated to the first `n`, with `n` defaulting to 3.  "First `n`" is
pinned three ways: the selection is a prefix of the stable sort of the
filtered pool; selected multiplicities never exceed the pool's; and any
pool offer not fully taken bounds every selected key from above, so the
selection is exactly the `n` soonest-expiring offers. -/
theorem C2_featured_offers (today : Date) (offers stores : List Row) (n : Nat) :
    (∀ o ∈ get_featured_offers today offers stores n, featuredPred today stores o = true) ∧
    (get_featured_offers today offers stores n).length
        = min n (offers.filter (featuredPred today stores)).length ∧
    (get_featured_offers today offers stores n).Pairwise
        (fun a b => (sort_key a).key ≤ (sort_key b).key) ∧
    (∀ k, ∃ t, (get_featured_offers today offers stores n).filter
            (fun o => (sort_key o).key == k) ++ t
          = (offers.filter (featuredPred today stores)).filter
            (fun o => (sort_key o).key == k)) ∧
    ((offers.filter (featuredPred today stores)).length ≤ n →
      (get_featured_offers today offers stores n).Perm
        (offers.filter (featuredPred today stores))) ∧
    (∃ t, get_featured_offers today offers stores n ++ t
        = (offers.filter (featuredPred today stores)).mergeSort offerLE) ∧
    (∀ o, List.count o (get_featured_offers today offers stores n)
        ≤ List.count o (offers.filter (featuredPred today stores))) ∧
    (∀ o', o' ∈ offers.filter (featuredPred today stores) →
      List.count o' (get_featured_offers today offers stores n)
          < List.count o' (offers.filter (featuredPred today stores)) →
      ∀ o ∈ get_featured_offers today offers stores n,
        (sort_key o).key ≤ (sort_key o').key) ∧
    get_featured_offers today offers stores = get_featured_offers today offers stores 3 := by
  refine ⟨?_, ?_, ?_, ?_, ?_, ?_, ?_, ?_, rfl⟩
  · intro o ho
    have h1 : o ∈ (offers.filter (featuredPred today stores)).mergeSort offerLE :=
      (List.take_sublist _ _).mem ho
    rw [List.mem_mergeSort] at h1
    exact List.of_mem_filter h1
  · rw [get_featured_offers, List.length_take, List.length_mergeSort]
  · have hs := List.sorted_mergeSort offerLE_trans offerLE_total
      (offers.filter (featuredPred today stores))
    have ht : (get_featured_offers today offers stores n).Pairwise
        (fun a b => offerLE a b = true) :=
      hs.sublist (List.take_sublist _ _)
    exact ht.imp (fun h => by simpa [offerLE, decide_eq_true_eq] using h)
  · intro k
    obtain ⟨t, ht⟩ := filter_take_append (fun o => (sort_key o).key == k)
      ((offers.filter (featuredPred today stores)).mergeSort offerLE) n
    rw [mergeSort_filter_key] at ht
    exact ⟨t, ht⟩
  · intro hle
    rw [get_featured_offers, List.take_of_length_le (by rw [List.length_mergeSort]; exact hle)]
    exact List.mergeSort_perm _ _
  · exact ⟨((offers.filter (featuredPred today stores)).mergeSort offerLE).drop n,
      List.take_append_drop n _⟩
  · intro o
    have h1 : List.count o (get_featured_offers today offers stores n)
        ≤ List.count o ((offers.filter (featuredPred today stores)).mergeSort offerLE) :=
      (List.take_sublist _ _).count_le o
    have h2 : List.count o ((offers.filter (featuredPred today stores)).mergeSort offerLE)
        = List.count o (offers.filter (featuredPred today stores)) := by
      rw [List.count_eq_countP, List.count_eq_countP]
      exact (List.mergeSort_perm (offers.filter (featuredPred today stores)) offerLE).countP_eq _
    omega
  · intro o' ho' hcount o ho
    have hsplit := List.take_append_drop n
      ((offers.filter (featuredPred today stores)).mergeSort offerLE)
    have hcnt : List.count o' ((offers.filter (featuredPred today stores)).mergeSort offerLE)
        = List.count o' (offers.filter (featuredPred today stores)) := by
      rw [List.count_eq_countP, List.count_eq_countP]
      exact (List.mergeSort_perm (offers.filter (featuredPred today stores)) offerLE).countP_eq _
    have hsum : List.count o' ((offers.filter (featuredPred today stores)).mergeSort offerLE)
        = List.count o' (get_featured_offers today offers stores n)
          + List.count o'
              (((offers.filter (featuredPred today stores)).mergeSort offerLE).drop n) := by
      conv_lhs => rw [← hsplit]
      rw [List.count_append]
      rfl
    have hdrop : o' ∈ ((offers.filter (featuredPred today stores)).mergeSort offerLE).drop n :=
      List.count_pos_iff.1 (by omega)
    have hs := List.sorted_mergeSort offerLE_trans offerLE_total
      (offers.filter (featuredPred today stores))
    rw [← hsplit] at hs
    have hrel := (List.pairwise_append.1 hs).2.2 o ho o' hdrop
    simpa [offerLE, decide_eq_true_eq] using hrel

/-- Witness for C2: with two qualifying offers and `n = 5`, the selection
is a permutation of (here: equal to) the filtered offer list. -/
theorem C2_featured_offers_witness :
    (get_featured_offers ⟨2026, 1, 10⟩
        [[("Store_ID", "S"), ("Valid_till", "05-Feb-2026")],
         [("Store_ID", "S"), ("Valid_till", "20-Jan-2026")]]
        [[("Store_ID", "S")]] 5).Perm
      ([[("Store_ID", "S"), ("Valid_till", "05-Feb-2026")],
        [("Store_ID", "S"), ("Valid_till", "20-Jan-2026")]].filter
        (featuredPred ⟨2026, 1, 10⟩ [[("Store_ID", "S")]])) := by
  exact (C2_featured_offers ⟨2026, 1, 10⟩
    [[("Store_ID", "S"), ("Valid_till", "05-Feb-2026")],
     [("Store_ID", "S"), ("Valid_till", "20-Jan-2026")]]
    [[("Store_ID", "S")]] 5).2.2.2.2.1 (by decide)

/-- Characters that cannot start a comment match pass through the
comment-stripping scan. -/
theorem stripComments_no_lt :
    ∀ (a b : List Char), (∀ x ∈ a, x ≠ '<') →
      stripComments (a ++ b) = a ++ stripComments b := by
  intro a
  induction a with
  | nil => intro b _; rfl
  | cons x a' ih =>
    intro b ha
    have hx : x ≠ '<' := ha x (List.mem_cons_self x a')
    rw [List.cons_append, stripComments]
    have hpre : ("<!--".data.isPrefixOf (x :: (a' ++ b))) = false := by
      show (('<' == x) && _) = false
      rw [Bool.and_eq_false_iff]
      left
      rw [beq_eq_false_iff_ne]
      exact fun hc => hx hc.symm
    rw [hpre]
    rw [if_neg (by simp :
      ¬ ((false && !("[if".data.isPrefixOf ((x :: (a' ++ b)).drop 4))) = true))]
    rw [ih b (fun y hy => ha y (List.mem_cons_of_mem x hy))]
    rfl

/-- With no `-->` inside `c`, the first close after the opener is the
canonical one. -/
theorem findClose_boundary :
    ∀ (c rest : List Char), listContainsSub "-->".data c = false →
      findClose (c ++ ("-->".data ++ rest)) = some rest := by
  intro c
  induction c with
  | nil =>
    intro rest _
    have hsh : ([] : List Char) ++ ("-->".data ++ rest) = '-' :: ('-' :: ('>' :: rest)) := rfl
    rw [hsh, findClose]
    rw [if_pos (by simp [List.isPrefixOf])]
    rfl
  | cons x c2 ih =>
    intro rest hc
    rw [listContainsSub, Bool.or_eq_false_iff] at hc
    obtain ⟨hhead, htail⟩ := hc
    rw [List.cons_append, findClose]
    have hn : "-->".data = ['-', '-', '>'] := rfl
    have hpre : ("-->".data.isPrefixOf (x :: (c2 ++ ("-->".data ++ rest)))) = false := by
      by_contra hcon
      rw [Bool.not_eq_false] at hcon
      cases c2 with
      | nil =>
        have hsh : x :: (([] : List Char) ++ ("-->".data ++ rest))
            = x :: ('-' :: ('-' :: ('>' :: rest))) := rfl
        rw [hsh, hn] at hcon
        simp [List.isPrefixOf] at hcon
      | cons y c3 =>
        cases c3 with
        | nil =>
          have hsh : x :: (([y] : List Char) ++ ("-->".data ++ rest))
              = x :: (y :: ('-' :: ('-' :: ('>' :: rest)))) := rfl
          rw [hsh, hn] at hcon
          simp [List.isPrefixOf] at hcon
        | cons z c4 =>
          have hsh : x :: ((y :: z :: c4) ++ ("-->".data ++ rest))
              = x :: (y :: (z :: (c4 ++ ("-->".data ++ rest)))) := by simp
          rw [hsh, hn] at hcon
          simp only [List.isPrefixOf, Bool.and_eq_true, beq_iff_eq] at hcon
          obtain ⟨e1, e2, e3, -⟩ := hcon
          subst e1
          subst e2
          subst e3
          rw [hn] at hhead
          simp [List.isPrefixOf] at hhead
    rw [hpre]
    rw [if_neg (by simp : ¬ (false = true))]
    exact ih rest htail

/-- Removing one well-formed, non-IE comment at the front of the scan. -/
theorem stripComments_comment_front (c rest : List Char)
    (hc : listContainsSub "-->".data c = false)
    (hif : ("[if".data.isPrefixOf (c ++ ("-->".data ++ rest))) = false) :
    stripComments ("<!--".data ++ (c ++ ("-->".data ++ rest))) = stripComments rest := by
  have hshape : "<!--".data ++ (c ++ ("-->".data ++ rest))
      = '<' :: ('!' :: '-' :: '-' :: (c ++ ("-->".data ++ rest))) := rfl
  rw [hshape, stripComments]
  have hpre : ("<!--".data.isPrefixOf
      ('<' :: '!' :: '-' :: '-' :: (c ++ ("-->".data ++ rest)))) = true := by
    have hn : "<!--".data = ['<', '!', '-', '-'] := rfl
    rw [hn]
    simp [List.isPrefixOf]
  have hdrop : ('<' :: '!' :: '-' :: '-' :: (c ++ ("-->".data ++ rest))).drop 4
      = c ++ ("-->".data ++ rest) := rfl
  rw [hpre, hdrop, hif]
  rw [if_pos (by simp)]
  split
  · rename_i r hsome
    rw [findClose_boundary c rest hc] at hsome
    injection hsome with hr
    rw [hr]
  · rename_i hnone
    rw [findClose_boundary c rest hc] at hnone
    cases hnone

/-- A run bounded by a non-run character on the right is exactly what
`takeWhile`/`dropWhile` split off. -/
theorem run_split (p : Char → Bool) :
    ∀ (r b : List Char), (∀ x ∈ r, p x = true) → (∀ x ∈ b.take 1, p x = false) →
      (r ++ b).takeWhile p = r ∧ (r ++ b).dropWhile p = b := by
  intro r
  induction r with
  | nil =>
    intro b _ hb
    cases b with
    | nil => exact ⟨rfl, rfl⟩
    | cons y bs =>
      have hy : p y = false := hb y (by simp)
      rw [List.nil_append]
      constructor
      · rw [List.takeWhile_cons, hy]
        rfl
      · rw [List.dropWhile_cons, hy]
        rfl
  | cons z r' ih =>
    intro b hr hb
    have hz : p z = true := hr z (List.mem_cons_self z r')
    obtain ⟨ht, hd⟩ := ih b (fun y hy => hr y (List.mem_cons_of_mem z hy)) hb
    rw [List.cons_append]
    constructor
    · rw [List.takeWhile_cons, hz]
      simp [ht]
    · rw [List.dropWhile_cons, hz]
      simp [hd]

/-- One maximal run surrounded by non-run text rewrites through
`collapseRuns`. -/
theorem collapseRuns_concat (p : Char → Bool) (repl : List Char → List Char) :
    ∀ (a r b : List Char), (∀ x ∈ a, p x = false) → (∀ x ∈ r, p x = true) →
      (∀ x ∈ b.take 1, p x = false) →
      collapseRuns p repl (a ++ r ++ b)
        = a ++ (if r = [] then [] else repl r) ++ collapseRuns p repl b := by
  intro a
  induction a with
  | nil =>
    intro r b _ hr hb
    cases r with
    | nil => simp
    | cons z r' =>
      have hz : p z = true := hr z (List.mem_cons_self z r')
      rw [List.nil_append, List.cons_append, collapseRuns]
      rw [if_pos (by rw [hz] : (p z) = true)]
      obtain ⟨ht, hd⟩ := run_split p (z :: r') b hr hb
      rw [List.cons_append] at ht hd
      rw [ht, hd]
      rw [if_neg (by simp : ¬ (z :: r' = []))]
      simp
  | cons x a' ih =>
    intro r b ha hr hb
    have hx : p x = false := ha x (List.mem_cons_self x a')
    rw [List.cons_append, List.cons_append, collapseRuns]
    rw [if_neg (by rw [hx]; simp : ¬ ((p x) = true))]
    rw [ih r b (fun y hy => ha y (List.mem_cons_of_mem x hy)) hr hb]
    simp

theorem splitNL_ne_nil : ∀ (cs : List Char), splitNL cs ≠ [] := by
  intro cs
  induction cs with
  | nil => simp [splitNL]
  | cons c cs ih =>
    rw [splitNL]
    by_cases hc : c = '\n'
    · rw [if_pos hc]
      simp
    · rw [if_neg hc]
      cases hs : splitNL cs <;> simp

theorem splitNL_no_nl : ∀ (cs : List Char) (l : List Char), l ∈ splitNL cs → '\n' ∉ l := by
  intro cs
  induction cs with
  | nil =>
    intro l hl
    rw [splitNL] at hl
    rw [List.mem_singleton] at hl
    rw [hl]
    simp
  | cons c cs ih =>
    intro l hl
    rw [splitNL] at hl
    by_cases hc : c = '\n'
    · rw [if_pos hc] at hl
      rcases List.mem_cons.1 hl with h | h
      · rw [h]; simp
      · exact ih l h
    · rw [if_neg hc] at hl
      cases hs : splitNL cs with
      | nil => exact absurd hs (splitNL_ne_nil cs)
      | cons l0 ls =>
        rw [hs] at hl
        rcases List.mem_cons.1 hl with h | h
        · rw [h]
          intro hmem
          rcases List.mem_cons.1 hmem with h' | h'
          · exact hc h'.symm
          · exact ih l0 (hs ▸ List.mem_cons_self l0 ls) h'
        · exact ih l (hs ▸ List.mem_cons_of_mem l0 h)

theorem splitNL_single : ∀ (l : List Char), '\n' ∉ l → splitNL l = [l] := by
  intro l
  induction l with
  | nil => intro _; rfl
  | cons c l' ih =>
    intro hnl
    have hc : c ≠ '\n' := fun h => hnl (h ▸ List.mem_cons_self c l')
    rw [splitNL, if_neg hc, ih (fun h => hnl (List.mem_cons_of_mem c h))]

theorem splitNL_append_nl :
    ∀ (l X : List Char), '\n' ∉ l → splitNL (l ++ '\n' :: X) = l :: splitNL X := by
  intro l
  induction l with
  | nil =>
    intro X _
    rw [List.nil_append, splitNL, if_pos rfl]
  | cons c l' ih =>
    intro X hnl
    have hc : c ≠ '\n' := fun h => hnl (h ▸ List.mem_cons_self c l')
    rw [List.cons_append, splitNL, if_neg hc, ih X (fun h => hnl (List.mem_cons_of_mem c h))]

theorem splitNL_joinNL :
    ∀ (ls : List (List Char)), ls ≠ [] → (∀ l ∈ ls, '\n' ∉ l) →
      splitNL (joinNL ls) = ls := by
  intro ls
  induction ls with
  | nil => intro h _; exact absurd rfl h
  | cons l ls ih =>
    intro _ hnl
    cases ls with
    | nil =>
      rw [joinNL]
      exact splitNL_single l (hnl l (List.mem_cons_self l []))
    | cons l2 ls' =>
      rw [show joinNL (l :: l2 :: ls') = l ++ '\n' :: joinNL (l2 :: ls') from rfl]
      rw [splitNL_append_nl l _ (hnl l (List.mem_cons_self l _))]
      rw [ih (by intro h; cases h) (fun y hy => hnl y (List.mem_cons_of_mem l hy))]

/-- The lines of `lstripLines`'s output are the `lstrip()`ed input lines. -/
theorem lstripLines_lines (cs : List Char) :
    splitNL (lstripLines cs) = (splitNL cs).map (List.dropWhile pyIsSpace) := by
  rw [lstripLines]
  apply splitNL_joinNL
  · intro h
    exact splitNL_ne_nil cs (List.map_eq_nil_iff.mp h)
  · intro l hl
    rw [List.mem_map] at hl
    obtain ⟨piece, hp, hpl⟩ := hl
    rw [← hpl]
    intro hc
    exact splitNL_no_nl cs piece hp ((List.dropWhile_sublist _).subset hc)

/-- **C9**: the minification pass (in order) removes HTML comments except
those opening `<!--[if`, collapses each run of three or more newlines to a
single blank line (two newlines) while shorter runs survive, strips
leading whitespace from every line, and collapses each run of two or more
spaces/tabs to one space (finally trimming the result). -/
theorem C9_minify_html (html : String) (c rest a b r cs : List Char) (k : Nat) :
    minify_html html
      = String.mk (pyStripChars (collapseHWS (lstripLines (collapseNL
          (stripComments html.data))))) ∧
    (listContainsSub "-->".data c = false →
      ("[if".data.isPrefixOf (c ++ ("-->".data ++ rest))) = false →
      stripComments ("<!--".data ++ (c ++ ("-->".data ++ rest))) = stripComments rest) ∧
    stripComments ("<!--[if".data ++ rest) = "<!--[if".data ++ stripComments rest ∧
    ((∀ x ∈ a, x ≠ '\n') → (∀ x ∈ b.take 1, x ≠ '\n') → 3 ≤ k →
      collapseNL (a ++ List.replicate k '\n' ++ b) = a ++ ['\n', '\n'] ++ collapseNL b) ∧
    ((∀ x ∈ a, x ≠ '\n') → (∀ x ∈ b.take 1, x ≠ '\n') → k ≤ 2 →
      collapseNL (a ++ List.replicate k '\n' ++ b)
        = a ++ List.replicate k '\n' ++ collapseNL b) ∧
    splitNL (lstripLines cs) = (splitNL cs).map (List.dropWhile pyIsSpace) ∧
    ((∀ x ∈ a, (x == ' ' || x == '\t') = false) → (∀ x ∈ r, (x == ' ' || x == '\t') = true) →
      2 ≤ r.length → (∀ x ∈ b.take 1, (x == ' ' || x == '\t') = false) →
      collapseHWS (a ++ r ++ b) = a ++ [' '] ++ collapseHWS b) := by
  refine ⟨rfl, stripComments_comment_front c rest, ?_, ?_, ?_, lstripLines_lines cs, ?_⟩
  · have hsh : "<!--[if".data ++ rest = '<' :: ("!--[if".data ++ rest) := rfl
    rw [hsh, stripComments]
    have h1 : ("[if".data.isPrefixOf (('<' :: ("!--[if".data ++ rest)).drop 4)) = true := by
      rw [show ('<' :: ("!--[if".data ++ rest)).drop 4 = '[' :: ('i' :: ('f' :: rest)) from rfl]
      simp [List.isPrefixOf]
    rw [if_neg (by rw [h1]; simp)]
    rw [stripComments_no_lt "!--[if".data rest (by decide)]
    rfl
  · intro ha hb hk
    have h1 := collapseRuns_concat (fun x => x == '\n') replNL
      a (List.replicate k '\n') b
      (fun x hx => beq_eq_false_iff_ne.2 (ha x hx))
      (fun x hx => by rw [List.eq_of_mem_replicate hx]; rfl)
      (fun x hx => beq_eq_false_iff_ne.2 (hb x hx))
    show collapseRuns (fun x => x == '\n') replNL (a ++ List.replicate k '\n' ++ b) = _
    rw [h1]
    rw [if_neg (by
      intro hc
      rw [List.replicate_eq_nil_iff] at hc
      omega)]
    rw [replNL, List.length_replicate, if_pos hk]
    rfl
  · intro ha hb hk
    have h1 := collapseRuns_concat (fun x => x == '\n') replNL
      a (List.replicate k '\n') b
      (fun x hx => beq_eq_false_iff_ne.2 (ha x hx))
      (fun x hx => by rw [List.eq_of_mem_replicate hx]; rfl)
      (fun x hx => beq_eq_false_iff_ne.2 (hb x hx))
    show collapseRuns (fun x => x == '\n') replNL (a ++ List.replicate k '\n' ++ b) = _
    rw [h1]
    cases k with
    | zero =>
      simp [collapseNL]
    | succ q =>
      rw [if_neg (by
        intro hc
        rw [List.replicate_eq_nil_iff] at hc
        omega)]
      rw [replNL, List.length_replicate, if_neg (by omega)]
      rfl
  · intro ha hr hlen hb
    have h1 := collapseRuns_concat (fun x => x == ' ' || x == '\t') replHWS a r b ha hr hb
    show collapseRuns (fun x => x == ' ' || x == '\t') replHWS (a ++ r ++ b) = _
    rw [h1]
    rw [if_neg (by
      intro hc
      rw [hc] at hlen
      simp at hlen)]
    rw [replHWS, if_pos hlen]
    rfl

/-- Witness for C9: concrete comment removal, blank-line collapse, and
whitespace collapse via the theorem. -/
theorem C9_minify_html_witness :
    stripComments ("<!--".data ++ (" note ".data ++ ("-->".data ++ "ok".data)))
        = stripComments "ok".data ∧
    collapseNL ("x".data ++ List.replicate 4 '\n' ++ "y".data)
        = "x".data ++ ['\n', '\n'] ++ collapseNL "y".data ∧
    collapseHWS ("a".data ++ [' ', '\t', ' '] ++ "b".data)
        = "a".data ++ [' '] ++ collapseHWS "b".data := by
  refine ⟨?_, ?_, ?_⟩
  · exact (C9_minify_html "" " note ".data "ok".data [] [] [] [] 0).2.1
      (by decide) (by decide)
  · exact (C9_minify_html "" [] [] "x".data "y".data [] [] 4).2.2.2.1
      (by decide) (by decide) (by decide)
  · exact (C9_minify_html "" [] [] "a".data "b".data [' ', '\t', ' '] [] 0).2.2.2.2.2.2
      (by decide) (by decide) (by decide) (by decide)

end NaturalsBuild
